import Mathlib

/-!
Verification of the tequila gradient engine (`src/tequila/circuit/gradient.py`)
against its natural-language specification.

The gradient module operates on collaborator classes (Variable, Objective,
ExpectationValueImpl, QCircuit, gates, Compiler) that live outside the core
module; their interfaces are modelled here from the specification (its data
model and external-interface sections), while every function of
`gradient.py` itself is translated line by line.

Numeric conventions: gate metadata (shift constants, generalized-shift
weights) is modelled over the rationals so that equality tests occurring in
the engine (the `inner == 0.0` drop test, memoization-cache key lookup) stay
decidable; evaluation of objectives is real-valued via an oracle for the
expectation value of a circuit against an observable.  The shifted-parameter
constant pi/(4*s) is represented exactly by a pair (rational part, rational
coefficient of pi).
-/

namespace Tequila

/-- Modelled from the spec: a Variable is an immutable hashable symbolic
identifier with equality by canonical form; represented as a string name. -/
abbrev TqVariable := String

/-- Modelled from the spec: the observable of an expectation value, assumed
parameter-free for gradient purposes; opaque label. -/
abbrev Ham := String

/-- Exact representation of the constants the engine adds to gate
parameters: a rational number plus a rational multiple of pi. -/
structure PiRat where
  rat : ℚ
  piCoeff : ℚ
  deriving DecidableEq

/-- Real value of a PiRat constant. -/
noncomputable def PiRat.toReal (x : PiRat) : ℝ := (x.rat : ℝ) + (x.piCoeff : ℝ) * Real.pi

/-- Modelled from the spec: a gate parameter is a Variable, a numeric
constant, or an arithmetic expression of Variables; here the forms the
engine reads or constructs — a bare Variable, a constant, or a previously
built parameter shifted by an additive constant (as built by
`g._parameter + np.pi / (4 * g.shift)`). -/
inductive Param where
  | var (v : TqVariable)
  | const (c : PiRat)
  | add (p : Param) (c : PiRat)
  deriving DecidableEq

/-- Real value of a parameter expression under an assignment. -/
noncomputable def Param.eval (σ : TqVariable → ℝ) : Param → ℝ
  | .var v => σ v
  | .const c => c.toReal
  | .add p c => p.eval σ + c.toReal

/-- Free variables of a parameter expression. -/
def Param.vars : Param → List TqVariable
  | .var v => [v]
  | .const _ => []
  | .add p _ => p.vars

/-- Embeds `__grad_inner` (gradient.py lines 109-131) as applied to gate
parameter expressions: a bare Variable yields 1.0 or 0.0 by identity with
the target (lines 119-123); a non-Variable parameter expression is
differentiated through the chain rule (`__grad_objective` with the autodiff
backend on the parameter's arithmetic), which on the constant and
additive-shift forms gives 0 and the derivative of the underlying
expression. -/
def gradInnerParam (p : Param) (v : TqVariable) : ℚ :=
  match p with
  | .var w => if w = v then 1 else 0
  | .const _ => 0
  | .add q _ => gradInnerParam q v

/-- Modelled from the spec: the transformation of an Objective is a pure
numeric function of as many scalar inputs as there are arguments,
differentiable by the autodiff backend; represented as a syntactic
arithmetic expression over input slots, with rational constants. -/
inductive Expr where
  | input (i : Nat)
  | const (c : ℚ)
  | add (a b : Expr)
  | mul (a b : Expr)
  deriving DecidableEq

/-- Value of a transformation expression given values for the input slots. -/
noncomputable def Expr.eval (xs : Nat → ℝ) : Expr → ℝ
  | .input i => xs i
  | .const c => (c : ℝ)
  | .add a b => a.eval xs + b.eval xs
  | .mul a b => a.eval xs * b.eval xs

/-- Modelled from the spec: the autodiff backend (`jax.grad(T, argnums=i)`)
returns the partial-derivative function of the transformation with respect
to its i-th input; realized as symbolic differentiation. -/
def Expr.deriv (i : Nat) : Expr → Expr
  | .input j => .const (if j = i then 1 else 0)
  | .const _ => .const 0
  | .add a b => .add (a.deriv i) (b.deriv i)
  | .mul a b => .add (.mul (a.deriv i) b) (.mul a (b.deriv i))

/-- Reindexing of input slots by an offset, used when two argument lists
are concatenated by objective addition/multiplication. -/
def Expr.shiftIdx (k : Nat) : Expr → Expr
  | .input i => .input (i + k)
  | .const c => .const c
  | .add a b => .add (a.shiftIdx k) (b.shiftIdx k)
  | .mul a b => .mul (a.shiftIdx k) (b.shiftIdx k)

/-- Expression only reads input slots below n. -/
def Expr.bound (n : Nat) : Expr → Bool
  | .input i => decide (i < n)
  | .const _ => true
  | .add a b => a.bound n && b.bound n
  | .mul a b => a.bound n && b.bound n

/-- Sum of the first n input slots: the identity / pass-through
transformation of an absent transformation field, as a function of the
whole argument list (0 for no arguments, the single argument itself for
one argument). -/
def sumInputs : Nat → Expr
  | 0 => .const 0
  | n + 1 => .add (sumInputs n) (.input n)

/-- Modelled from the spec: a gate carries a scalar parameter, an optional
simple shift constant s (`hasattr(g, "shift")` iff present), an optional
generalized list of (weight, shifted gate) pairs
(`hasattr(g, "shifted_gates")` iff present), and a controlled flag. -/
inductive Gate where
  | mk (parameter : Param) (shift : Option ℚ)
      (shiftedGates : Option (List (ℚ × Gate))) (controlled : Bool)

mutual

/-- Boolean structural equality of gates (deriving is unavailable for the
nested inductive, so it is written out and proved lawful below). -/
def Gate.beq : Gate → Gate → Bool
  | .mk p1 s1 sg1 c1, .mk p2 s2 sg2 c2 =>
      p1 == p2 && s1 == s2 && c1 == c2 && beqShiftedOpt sg1 sg2

/-- Boolean equality of optional shifted-gate lists. -/
def beqShiftedOpt : Option (List (ℚ × Gate)) → Option (List (ℚ × Gate)) → Bool
  | none, none => true
  | some l1, some l2 => beqShiftedList l1 l2
  | _, _ => false

/-- Boolean equality of shifted-gate lists. -/
def beqShiftedList : List (ℚ × Gate) → List (ℚ × Gate) → Bool
  | [], [] => true
  | (w1, g1) :: r1, (w2, g2) :: r2 => w1 == w2 && Gate.beq g1 g2 && beqShiftedList r1 r2
  | _, _ => false

end

mutual

/-- Gate boolean equality is propositional equality. -/
theorem Gate.beq_iff : ∀ a b : Gate, Gate.beq a b = true ↔ a = b
  | .mk p1 s1 sg1 c1, .mk p2 s2 sg2 c2 => by
    simp only [Gate.beq, Bool.and_eq_true, beq_iff_eq]
    constructor
    · rintro ⟨⟨⟨hp, hs⟩, hc⟩, hsg⟩
      rw [hp, hs, hc, (beqShiftedOpt_iff sg1 sg2).mp hsg]
    · intro h
      injection h with hp hs hsg hc
      exact ⟨⟨⟨hp, hs⟩, hc⟩, hsg ▸ (beqShiftedOpt_iff sg1 sg1).mpr rfl⟩

/-- Optional shifted-gate list boolean equality is propositional equality. -/
theorem beqShiftedOpt_iff :
    ∀ a b : Option (List (ℚ × Gate)), beqShiftedOpt a b = true ↔ a = b
  | none, none => by simp [beqShiftedOpt]
  | none, some _ => by simp [beqShiftedOpt]
  | some _, none => by simp [beqShiftedOpt]
  | some l1, some l2 => by
    simp only [beqShiftedOpt, Option.some.injEq]
    exact beqShiftedList_iff l1 l2

/-- Shifted-gate list boolean equality is propositional equality. -/
theorem beqShiftedList_iff :
    ∀ a b : List (ℚ × Gate), beqShiftedList a b = true ↔ a = b
  | [], [] => by simp [beqShiftedList]
  | [], (_, _) :: _ => by simp [beqShiftedList]
  | (_, _) :: _, [] => by simp [beqShiftedList]
  | (w1, g1) :: r1, (w2, g2) :: r2 => by
    simp only [beqShiftedList, Bool.and_eq_true, beq_iff_eq, List.cons.injEq,
      Prod.mk.injEq]
    rw [Gate.beq_iff g1 g2, beqShiftedList_iff r1 r2]

end

instance : DecidableEq Gate := fun a b => decidable_of_iff _ (Gate.beq_iff a b)

/-- Parameter of a gate (`g._parameter`, read by the `parameter` property). -/
def Gate.parameter : Gate → Param
  | .mk p _ _ _ => p

/-- Simple shift constant of a gate, when it has one. -/
def Gate.shift : Gate → Option ℚ
  | .mk _ s _ _ => s

/-- Generalized shifted-gate list of a gate, when it has one. -/
def Gate.shiftedGates : Gate → Option (List (ℚ × Gate))
  | .mk _ _ sg _ => sg

/-- Whether the gate is controlled (`g.is_controlled()`). -/
def Gate.controlled : Gate → Bool
  | .mk _ _ _ c => c

/-- Gate equal to g except for its parameter: the value produced by
`copy.deepcopy(g)` followed by assigning `_parameter` on the copy. -/
def Gate.withParameter (g : Gate) (p : Param) : Gate :=
  match g with
  | .mk _ s sg c => .mk p s sg c

/-- Modelled from the spec: a unitary is an ordered sequence of gates with
a validity predicate; `verify()` is an external structural check, carried
here as a stored flag. -/
structure QCircuit where
  gates : List Gate
  valid : Bool
  deriving DecidableEq

/-- Validity predicate of the circuit (`U.verify()`). -/
def QCircuit.verify (c : QCircuit) : Bool := c.valid

/-- Set of Variables appearing in any gate parameter of the circuit
(`U.extract_variables()`), as a duplicate-free list. -/
def QCircuit.extractVariables (c : QCircuit) : List TqVariable :=
  ((c.gates.map (fun g => g.parameter.vars)).flatten).dedup

/-- Ordered list of (position, gate) occurrences of a Variable in the
circuit (`U._parameter_map[variable]`). -/
def QCircuit.parameterMap (c : QCircuit) (v : TqVariable) : List (Nat × Gate) :=
  c.gates.enum.filter (fun p => (p.2.parameter.vars).contains v)

/-- Modelled from the spec: `U.replace_gates(positions, circuits)` returns
a new unitary with the given positions substituted (structural copy, the
original untouched); specialized to the single-position form used by the
engine, splicing the replacement gates in place of position i. -/
def QCircuit.replaceGate (c : QCircuit) (i : Nat) (sub : List Gate) : QCircuit :=
  ⟨c.gates.take i ++ sub ++ c.gates.drop (i + 1), c.valid⟩

/-- Modelled from the spec: an ExpectationValue pairs a unitary with an
observable; its parameter set is the unitary's. -/
structure ExpV where
  U : QCircuit
  H : Ham
  deriving DecidableEq

mutual

/-- Modelled from the spec: an argument of an Objective is an
ExpectationValue, a Variable, or another Objective. -/
inductive Argument where
  | var (v : TqVariable)
  | ev (e : ExpV)
  | obj (o : Objective)

/-- Modelled from the spec: an Objective holds an ordered sequence of
arguments and an optional transformation (absent meaning identity /
pass-through). -/
inductive Objective where
  | mk (args : List Argument) (transformation : Option Expr)

end

/-- Argument list of an objective. -/
def Objective.args : Objective → List Argument
  | .mk a _ => a

/-- Transformation of an objective (none is the identity pass-through). -/
def Objective.transformation : Objective → Option Expr
  | .mk _ t => t

/-- Transformation as an expression: the stored one, or the pass-through
sum of all n input slots when absent. -/
def transfExpr (n : Nat) (t : Option Expr) : Expr :=
  match t with
  | some f => f
  | none => sumInputs n

/-- Whether the objective's transformation reads only its own argument
slots (objectives built by the engine all satisfy this). -/
def Objective.topBound : Objective → Bool
  | .mk args t => (transfExpr args.length t).bound args.length

/-- Empty objective `Objective()` (no arguments, no transformation). -/
def Objective.empty : Objective := .mk [] none

/-- Objective wrapping one expectation value,
`Objective.ExpectationValue(U=U, H=H)`. -/
def Objective.expectationValue (U : QCircuit) (H : Ham) : Objective :=
  .mk [.ev ⟨U, H⟩] none

/-- Modelled from the spec: objective addition composes by concatenating
the argument lists and summing the two transformations, the second with
its input slots shifted past the first argument list. -/
def Objective.addO (a b : Objective) : Objective :=
  .mk (a.args ++ b.args)
    (some (.add (transfExpr a.args.length a.transformation)
      ((transfExpr b.args.length b.transformation).shiftIdx a.args.length)))

/-- Modelled from the spec: objective multiplication, analogous to
addition with a product of the two transformations. -/
def Objective.mulO (a b : Objective) : Objective :=
  .mk (a.args ++ b.args)
    (some (.mul (transfExpr a.args.length a.transformation)
      ((transfExpr b.args.length b.transformation).shiftIdx a.args.length)))

/-- Modelled from the spec: scalar multiple of an objective, keeping the
arguments and scaling the transformation. -/
def Objective.smulO (w : ℚ) (a : Objective) : Objective :=
  .mk a.args (some (.mul (.const w) (transfExpr a.args.length a.transformation)))

/-- Objective with no arguments and a constant transformation, the result
of adding a plain number to an objective. -/
def constO (q : ℚ) : Objective := .mk [] (some (.const q))

/-- Modelled from the spec: `objective.is_expectationvalue()` — an
Objective whose sole purpose is to wrap one expectation value (single
expectation-value argument, identity transformation). -/
def Objective.isExpectationValue : Objective → Bool
  | .mk [.ev _] none => true
  | _ => false

/-- The type of the expectation-value oracle: the real number the external
simulation backend would return for a circuit, observable and variable
assignment. -/
abbrev EvOracle := QCircuit → Ham → (TqVariable → ℝ) → ℝ

mutual

/-- Value of an objective under an expectation-value oracle and a variable
assignment: the transformation applied to the values of its arguments. -/
noncomputable def Objective.evalO (ev : EvOracle) (σ : TqVariable → ℝ) : Objective → ℝ
  | .mk args t => (transfExpr args.length t).eval (fun i => (evalArgs ev σ args).getD i 0)

/-- Values of an argument list. -/
noncomputable def evalArgs (ev : EvOracle) (σ : TqVariable → ℝ) : List Argument → List ℝ
  | [] => []
  | a :: r => Argument.evalA ev σ a :: evalArgs ev σ r

/-- Value of a single argument. -/
noncomputable def Argument.evalA (ev : EvOracle) (σ : TqVariable → ℝ) : Argument → ℝ
  | .var v => σ v
  | .ev e => ev e.U e.H σ
  | .obj O => Objective.evalO ev σ O

end

/-- Result of an inner or outer derivative in the engine: a plain Python
number (float) or an Objective. -/
inductive GradVal where
  | num (q : ℚ)
  | obj (O : Objective)

/-- The engine's `inner == 0.0` test: true exactly on the literal number
zero (an Objective never compares equal to a float). -/
def GradVal.isZeroNum : GradVal → Bool
  | .num q => q == 0
  | .obj _ => false

/-- Python `x * y` on the mixed number/Objective values the engine holds:
numbers multiply, a number scales an objective, objectives multiply. -/
def mulGV : GradVal → GradVal → GradVal
  | .num a, .num b => .num (a * b)
  | .num a, .obj B => .obj (B.smulO a)
  | .obj A, .num b => .obj (A.smulO b)
  | .obj A, .obj B => .obj (A.mulO B)

/-- Python `x + y` on the mixed number/Objective values the engine holds. -/
def addGV : GradVal → GradVal → GradVal
  | .num a, .num b => .num (a + b)
  | .num a, .obj B => .obj ((constO a).addO B)
  | .obj A, .num b => .obj (A.addO (constO b))
  | .obj A, .obj B => .obj (A.addO B)

/-- Value of a number-or-objective result. -/
noncomputable def GradVal.evalGV (ev : EvOracle) (σ : TqVariable → ℝ) : GradVal → ℝ
  | .num q => (q : ℝ)
  | .obj O => O.evalO ev σ

/-- The TequilaException raise sites of gradient.py (messages elided):
no variables in an all-gradients call (line 27); variable lost after
compilation (line 52); unsupported input type (line 61); structurally
invalid unitary (line 144); controlled gate at differentiation time
(line 157); missing shift attribute (lines 159 and 195); empty
accumulation (line 105); and the attribute errors Python itself raises
when `compiled.args[-1]` is not an expectation value. -/
inductive Err where
  | noVariables
  | gradLost
  | notImplemented
  | invalidUnitary
  | controlledGate
  | noShift
  | noneCaught
  | typeErr
  deriving DecidableEq

/-- Embeds `__grad_gaussian` (gradient.py lines 169-214).  If the gate has
a shifted-gate list, each (weight, shifted gate) pair contributes the
weight times the derivative of the gate's own parameter, times the
expectation value of the circuit with position i replaced by the shifted
gate (lines 181-191).  Otherwise the simple two-term shift applies: two
copies of the gate with parameter shifted by plus and minus pi/(4*shift)
are substituted at position i, weighted by plus and minus
shift * d(parameter)/d(variable) (lines 194-214). -/
def gradGaussian (unitary : QCircuit) (g : Gate) (i : Nat) (v : TqVariable)
    (hamiltonian : Ham) : Except Err Objective :=
  match g.shiftedGates with
  | some shifted =>
      let innerGrad := gradInnerParam g.parameter v
      .ok (shifted.foldl
        (fun dOinc x =>
          let Ux := unitary.replaceGate i [x.2]
          let wx := x.1 * innerGrad
          let Ex := Objective.expectationValue Ux hamiltonian
          dOinc.addO (Ex.smulO wx))
        Objective.empty)
  | none =>
    match g.shift with
    | none => .error .noShift
    | some s =>
        let shiftA := Param.add g.parameter ⟨0, (4 * s)⁻¹⟩
        let shiftB := Param.add g.parameter ⟨0, -(4 * s)⁻¹⟩
        let neoA := g.withParameter shiftA
        let neoB := g.withParameter shiftB
        let U1 := unitary.replaceGate i [neoA]
        let w1 := s * gradInnerParam g.parameter v
        let U2 := unitary.replaceGate i [neoB]
        let w2 := -s * gradInnerParam g.parameter v
        let Oplus := Objective.mk [.ev ⟨U1, hamiltonian⟩] none
        let Ominus := Objective.mk [.ev ⟨U2, hamiltonian⟩] none
        .ok ((Oplus.smulO w1).addO (Ominus.smulO w2))

/-- Loop body of `__grad_expectationvalue` (gradient.py lines 153-163):
for each (position, gate) occurrence of the variable, fail on a controlled
gate or a gate without a shift attribute, otherwise accumulate the
per-gate contribution into dO. -/
def gradEVgo (U : QCircuit) (H : Ham) (v : TqVariable) :
    List (Nat × Gate) → Objective → Except Err GradVal
  | [], dO => .ok (.obj dO)
  | (idx, g) :: rest, dO =>
      if g.controlled then .error .controlledGate
      else if g.shift.isNone then .error .noShift
      else
        match gradGaussian U g idx v H with
        | .error e => .error e
        | .ok dOinc => gradEVgo U H v rest (dO.addO dOinc)

/-- Embeds `__grad_expectationvalue` (gradient.py lines 134-166): error on
an invalid unitary, fast literal-zero return when the variable does not
occur, otherwise the accumulated per-occurrence contributions. -/
def gradExpectationValue (E : ExpV) (v : TqVariable) : Except Err GradVal :=
  if E.U.verify = false then .error .invalidUnitary
  else if v ∈ E.U.extractVariables then
    gradEVgo E.U E.H v (E.U.parameterMap v) Objective.empty
  else .ok (.num 0)

/-- Outer factor for the i-th argument (gradient.py lines 70-82): the
constant 1.0 when the transformation is absent, otherwise the objective
with the same arguments and the backend's partial derivative of the
transformation with respect to input i. -/
def outerOf (args : List Argument) (t : Option Expr) (i : Nat) : GradVal :=
  match t with
  | none => .num 1
  | some f => .obj (.mk args (some (f.deriv i)))

/-- Accumulation step (gradient.py lines 95-102): a literal-zero inner
derivative is skipped, otherwise outer*inner starts or extends the sum. -/
def accStep (acc : Option GradVal) (outer innerV : GradVal) : Option GradVal :=
  if innerV.isZeroNum then acc
  else
    match acc with
    | none => some (mulGV outer innerV)
    | some d => some (addGV d (mulGV outer innerV))

/-- Lookup in the `processed_expectationvalues` memoization dictionary. -/
def lookupEV (cache : List (ExpV × GradVal)) (e : ExpV) : Option GradVal :=
  match cache with
  | [] => none
  | (k, x) :: r => if k = e then some x else lookupEV r e

mutual

/-- Embeds `__grad_objective` (gradient.py lines 64-106): loop over the
arguments with the memoization dictionary, dropping literal-zero inner
terms, accumulating outer*inner, and failing when nothing accumulated. -/
def gradObjective (O : Objective) (v : TqVariable) : Except Err GradVal :=
  match O with
  | .mk args t => gradObjectiveGo v args t 0 args [] none

/-- Loop of `__grad_objective` over the remaining arguments, carrying the
running index, the memoization dictionary and the accumulator dO. -/
def gradObjectiveGo (v : TqVariable) (args : List Argument) (t : Option Expr)
    (i : Nat) : List Argument → List (ExpV × GradVal) → Option GradVal →
    Except Err GradVal
  | [], _, none => .error .noneCaught
  | [], _, some d => .ok d
  | a :: rest, cache, acc =>
      let outer := outerOf args t i
      match a with
      | .ev e =>
          match lookupEV cache e with
          | some innerV =>
              gradObjectiveGo v args t (i + 1) rest cache (accStep acc outer innerV)
          | none =>
              match gradExpectationValue e v with
              | .error err => .error err
              | .ok innerV =>
                  gradObjectiveGo v args t (i + 1) rest ((e, innerV) :: cache)
                    (accStep acc outer innerV)
      | a =>
          match gradInnerArg a v with
          | .error err => .error err
          | .ok innerV =>
              gradObjectiveGo v args t (i + 1) rest cache (accStep acc outer innerV)

/-- Embeds `__grad_inner` (gradient.py lines 109-131) on objective
arguments: a Variable differentiates to the literal 1.0 or 0.0, an
expectation value to its shift-rule derivative, a sub-objective through
the chain rule. -/
def gradInnerArg : Argument → TqVariable → Except Err GradVal
  | .var w, v => .ok (.num (if w = v then 1 else 0))
  | .ev e, v => gradExpectationValue e v
  | .obj O, v => gradObjective O v

end

/-- Input accepted by `grad`: a bare ExpectationValueImpl or an Objective
(the docstring of `grad` admits both). -/
inductive GIn where
  | evI (E : ExpV)
  | objI (O : Objective)

mutual

/-- Free variables of an objective (`objective.extract_variables()`),
duplicate-free. -/
def Objective.extractVariables : Objective → List TqVariable
  | .mk args _ => (argumentsVars args).dedup

/-- Concatenated free variables of an argument list. -/
def argumentsVars : List Argument → List TqVariable
  | [] => []
  | a :: r => Argument.varsA a ++ argumentsVars r

/-- Free variables of one argument. -/
def Argument.varsA : Argument → List TqVariable
  | .var v => [v]
  | .ev e => e.U.extractVariables
  | .obj O => Objective.extractVariables O

end

/-- Free variables of a grad input (an ExpectationValue exposes its
unitary's variables). -/
def GIn.extractVarsIn : GIn → List TqVariable
  | .evI E => E.U.extractVariables
  | .objI O => O.extractVariables

/-- Embeds `grad` for a given target variable (gradient.py lines 33-61):
literal-zero fast path when the variable is absent, the compiler pre-pass
(modelled from the spec as an arbitrary function `comp` from input and
target variable to the compiled input, standing for the configured
`Compiler` call) unless skipped, the post-compilation presence check, and
the dispatch on node kind — note that a bare ExpectationValueImpl input is
dispatched on the original object (line 54), while Objective inputs use
the compiled form (lines 56-59). -/
def grad1 (comp : GIn → TqVariable → GIn) (objective : GIn) (v : TqVariable)
    (noCompile : Bool) : Except Err GradVal :=
  if v ∉ objective.extractVarsIn then .ok (.num 0)
  else
    let compiled := if noCompile then objective else comp objective v
    if v ∉ compiled.extractVarsIn then .error .gradLost
    else
      match objective with
      | .evI E => gradExpectationValue E v
      | .objI O =>
          if O.isExpectationValue then
            match compiled with
            | .objI C =>
                match C.args.getLast? with
                | some (.ev E) => gradExpectationValue E v
                | _ => .error .typeErr
            | .evI _ => .error .typeErr
          else
            match compiled with
            | .objI C => gradObjective C v
            | .evI _ => .error .notImplemented

/-- Loop of the all-variables branch of `grad` (gradient.py lines 29-31):
one recursive single-variable gradient per free variable, collected into
the result mapping in order. -/
def gradAll (comp : GIn → TqVariable → GIn) (objective : GIn) (noCompile : Bool) :
    List TqVariable → Except Err (List (TqVariable × GradVal))
  | [] => .ok []
  | k :: rest =>
      match grad1 comp objective k noCompile with
      | .error e => .error e
      | .ok gk =>
          match gradAll comp objective noCompile rest with
          | .error e => .error e
          | .ok m => .ok ((k, gk) :: m)

/-- Result of the public `grad` entry point: a single gradient value, or
the Variable-to-gradient mapping of the all-variables call. -/
inductive GradResult where
  | val (g : GradVal)
  | map (m : List (TqVariable × GradVal))

/-- Embeds the public `grad` entry point (gradient.py lines 12-61): with
no target variable, fail when the objective has no variables and otherwise
build the mapping over all of them; with a target variable, the
single-variable gradient. -/
def grad (comp : GIn → TqVariable → GIn) (objective : GIn)
    (target : Option TqVariable) (noCompile : Bool) : Except Err GradResult :=
  match target with
  | none =>
      let vars := objective.extractVarsIn
      if vars.isEmpty then .error .noVariables
      else
        match gradAll comp objective noCompile vars with
        | .error e => .error e
        | .ok m => .ok (.map m)
  | some v =>
      match grad1 comp objective v noCompile with
      | .error e => .error e
      | .ok g => .ok (.val g)

/-- Reference accumulation for the chain rule without the memoization
dictionary and without the zero test: fold of outer*inner over an
explicitly indexed argument list. -/
def accumTerms (v : TqVariable) (args : List Argument) (t : Option Expr) :
    List (Nat × Argument) → Option GradVal → Except Err GradVal
  | [], acc =>
      (match acc with
        | none => .error .noneCaught
        | some d => .ok d)
  | (i, a) :: rest, acc =>
      match gradInnerArg a v with
      | .error err => .error err
      | .ok innerV =>
          accumTerms v args t rest
            (match acc with
              | none => some (mulGV (outerOf args t i) innerV)
              | some d => some (addGV d (mulGV (outerOf args t i) innerV)))

/-- Whether an inner-derivative computation returned the literal zero that
the accumulator drops. -/
def isZeroResult : Except Err GradVal → Bool
  | .ok g => g.isZeroNum
  | .error _ => false

/-- Heap model for the copy-then-mutate construction of the two shifted
gate variants (gradient.py lines 198-203): gate objects live in a store
addressed by position; `copy.deepcopy` appends a structurally equal copy
at a fresh address, and the parameter assignment updates only the copy.
Returns the final store and the addresses of the two copies. -/
def simpleShiftAlloc (store : List Gate) (r : Nat) (s : ℚ) :
    List Gate × Nat × Nat :=
  let g := store.getD r (.mk (.const ⟨0, 0⟩) none none false)
  let shiftA := Param.add g.parameter ⟨0, (4 * s)⁻¹⟩
  let shiftB := Param.add g.parameter ⟨0, -(4 * s)⁻¹⟩
  let n := store.length
  let store1 := store ++ [g]
  let store2 := store1.set n ((store1.getD n g).withParameter shiftA)
  let store3 := store2 ++ [g]
  let store4 := store3.set (n + 1) ((store3.getD (n + 1) g).withParameter shiftB)
  (store4, n, n + 1)

/-! Evaluation algebra: how the value of an objective behaves under the
spec-modelled composition operators. -/

theorem Expr.eval_congr (e : Expr) (n : Nat) (xs ys : Nat → ℝ)
    (hb : e.bound n = true) (h : ∀ i, i < n → xs i = ys i) :
    e.eval xs = e.eval ys := by
  induction e with
  | input i => exact h i (by simpa [Expr.bound] using hb)
  | const c => rfl
  | add a b iha ihb =>
      simp only [Expr.bound, Bool.and_eq_true] at hb
      simp [Expr.eval, iha hb.1, ihb hb.2]
  | mul a b iha ihb =>
      simp only [Expr.bound, Bool.and_eq_true] at hb
      simp [Expr.eval, iha hb.1, ihb hb.2]

theorem Expr.eval_shiftIdx (e : Expr) (k : Nat) (xs : Nat → ℝ) :
    (e.shiftIdx k).eval xs = e.eval (fun i => xs (i + k)) := by
  induction e with
  | input i => rfl
  | const c => rfl
  | add a b iha ihb => simp [Expr.shiftIdx, Expr.eval, iha, ihb]
  | mul a b iha ihb => simp [Expr.shiftIdx, Expr.eval, iha, ihb]

theorem Expr.bound_mono (e : Expr) (n m : Nat) (hnm : n ≤ m)
    (hb : e.bound n = true) : e.bound m = true := by
  induction e with
  | input i =>
      simp only [Expr.bound, decide_eq_true_eq] at hb ⊢
      omega
  | const c => rfl
  | add a b iha ihb =>
      simp only [Expr.bound, Bool.and_eq_true] at hb ⊢
      exact ⟨iha hb.1, ihb hb.2⟩
  | mul a b iha ihb =>
      simp only [Expr.bound, Bool.and_eq_true] at hb ⊢
      exact ⟨iha hb.1, ihb hb.2⟩

theorem Expr.bound_shiftIdx (e : Expr) (n k : Nat)
    (hb : e.bound n = true) : (e.shiftIdx k).bound (n + k) = true := by
  induction e with
  | input i =>
      simp only [Expr.bound, decide_eq_true_eq] at hb ⊢
      simp [Expr.shiftIdx, Expr.bound]
      omega
  | const c => rfl
  | add a b iha ihb =>
      simp only [Expr.bound, Bool.and_eq_true] at hb
      simp only [Expr.shiftIdx, Expr.bound, Bool.and_eq_true]
      exact ⟨iha hb.1, ihb hb.2⟩
  | mul a b iha ihb =>
      simp only [Expr.bound, Bool.and_eq_true] at hb
      simp only [Expr.shiftIdx, Expr.bound, Bool.and_eq_true]
      exact ⟨iha hb.1, ihb hb.2⟩

theorem Expr.bound_deriv (e : Expr) (n i : Nat)
    (hb : e.bound n = true) : (e.deriv i).bound n = true := by
  induction e with
  | input j => rfl
  | const c => rfl
  | add a b iha ihb =>
      simp only [Expr.bound, Bool.and_eq_true] at hb
      simp only [Expr.deriv, Expr.bound, Bool.and_eq_true]
      exact ⟨iha hb.1, ihb hb.2⟩
  | mul a b iha ihb =>
      simp only [Expr.bound, Bool.and_eq_true] at hb
      simp only [Expr.deriv, Expr.bound, Bool.and_eq_true]
      exact ⟨⟨iha hb.1, hb.2⟩, ⟨hb.1, ihb hb.2⟩⟩

theorem sumInputs_bound (n : Nat) : (sumInputs n).bound n = true := by
  induction n with
  | zero => rfl
  | succ m ih =>
      simp only [sumInputs, Expr.bound, Bool.and_eq_true]
      exact ⟨Expr.bound_mono _ m (m + 1) (Nat.le_succ m) ih, by simp [Expr.bound]⟩

theorem sumInputs_eval (n : Nat) (xs : Nat → ℝ) :
    (sumInputs n).eval xs = ∑ i ∈ Finset.range n, xs i := by
  induction n with
  | zero => simp [sumInputs, Expr.eval]
  | succ m ih => simp [sumInputs, Expr.eval, ih, Finset.sum_range_succ]

theorem evalArgs_append (ev : EvOracle) (σ : TqVariable → ℝ)
    (l1 l2 : List Argument) :
    evalArgs ev σ (l1 ++ l2) = evalArgs ev σ l1 ++ evalArgs ev σ l2 := by
  induction l1 with
  | nil => simp [evalArgs]
  | cons a r ih => simp [evalArgs, ih]

theorem evalArgs_length (ev : EvOracle) (σ : TqVariable → ℝ) (l : List Argument) :
    (evalArgs ev σ l).length = l.length := by
  induction l with
  | nil => simp [evalArgs]
  | cons a r ih => simp [evalArgs, ih]

theorem evalO_mk (ev : EvOracle) (σ : TqVariable → ℝ) (args : List Argument)
    (t : Option Expr) :
    (Objective.mk args t).evalO ev σ =
      (transfExpr args.length t).eval (fun i => (evalArgs ev σ args).getD i 0) := by
  simp [Objective.evalO]

theorem evalO_addO (ev : EvOracle) (σ : TqVariable → ℝ) (a b : Objective)
    (ha : a.topBound = true) :
    (a.addO b).evalO ev σ = a.evalO ev σ + b.evalO ev σ := by
  obtain ⟨la, ta⟩ := a
  obtain ⟨lb, tb⟩ := b
  simp only [Objective.topBound] at ha
  simp only [Objective.addO, Objective.args, Objective.transformation, evalO_mk,
    transfExpr, Expr.eval, Expr.eval_shiftIdx, evalArgs_append]
  have hxs : (fun i => (evalArgs ev σ la ++ evalArgs ev σ lb).getD (i + la.length) 0)
      = (fun i => (evalArgs ev σ lb).getD i 0) := by
    funext i
    by_cases hi : i < lb.length
    · rw [List.getD_append_right _ _ _ _ (by rw [evalArgs_length]; omega)]
      congr 1
      rw [evalArgs_length]
      omega
    · rw [List.getD_eq_default, List.getD_eq_default]
      · rw [evalArgs_length]; omega
      · rw [List.length_append, evalArgs_length, evalArgs_length]; omega
  rw [hxs]
  congr 1
  refine Expr.eval_congr _ la.length _ _ ha (fun i hi => ?_)
  exact List.getD_append _ _ _ _ (by rw [evalArgs_length]; exact hi)

theorem evalO_mulO (ev : EvOracle) (σ : TqVariable → ℝ) (a b : Objective)
    (ha : a.topBound = true) :
    (a.mulO b).evalO ev σ = a.evalO ev σ * b.evalO ev σ := by
  obtain ⟨la, ta⟩ := a
  obtain ⟨lb, tb⟩ := b
  simp only [Objective.topBound] at ha
  simp only [Objective.mulO, Objective.args, Objective.transformation, evalO_mk,
    transfExpr, Expr.eval, Expr.eval_shiftIdx, evalArgs_append]
  have hxs : (fun i => (evalArgs ev σ la ++ evalArgs ev σ lb).getD (i + la.length) 0)
      = (fun i => (evalArgs ev σ lb).getD i 0) := by
    funext i
    by_cases hi : i < lb.length
    · rw [List.getD_append_right _ _ _ _ (by rw [evalArgs_length]; omega)]
      congr 1
      rw [evalArgs_length]
      omega
    · rw [List.getD_eq_default, List.getD_eq_default]
      · rw [evalArgs_length]; omega
      · rw [List.length_append, evalArgs_length, evalArgs_length]; omega
  rw [hxs]
  congr 1
  refine Expr.eval_congr _ la.length _ _ ha (fun i hi => ?_)
  exact List.getD_append _ _ _ _ (by rw [evalArgs_length]; exact hi)

theorem evalO_smulO (ev : EvOracle) (σ : TqVariable → ℝ) (a : Objective) (w : ℚ) :
    (a.smulO w).evalO ev σ = (w : ℝ) * a.evalO ev σ := by
  obtain ⟨la, ta⟩ := a
  simp [Objective.smulO, Objective.args, Objective.transformation, evalO_mk,
    transfExpr, Expr.eval]

theorem evalO_empty (ev : EvOracle) (σ : TqVariable → ℝ) :
    Objective.empty.evalO ev σ = 0 := by
  simp [Objective.empty, evalO_mk, transfExpr, sumInputs, Expr.eval]

theorem evalO_constO (ev : EvOracle) (σ : TqVariable → ℝ) (q : ℚ) :
    (constO q).evalO ev σ = (q : ℝ) := by
  simp [constO, evalO_mk, transfExpr, Expr.eval]

theorem evalO_singleEV (ev : EvOracle) (σ : TqVariable → ℝ) (e : ExpV) :
    (Objective.mk [.ev e] none).evalO ev σ = ev e.U e.H σ := by
  simp [evalO_mk, transfExpr, sumInputs, Expr.eval, evalArgs, Argument.evalA]

theorem evalO_expectationValue (ev : EvOracle) (σ : TqVariable → ℝ)
    (U : QCircuit) (H : Ham) :
    (Objective.expectationValue U H).evalO ev σ = ev U H σ :=
  evalO_singleEV ev σ ⟨U, H⟩

theorem topBound_mk_none (args : List Argument) :
    (Objective.mk args none).topBound = true := by
  simp [Objective.topBound, transfExpr, sumInputs_bound]

theorem topBound_empty : Objective.empty.topBound = true :=
  topBound_mk_none []

theorem topBound_expectationValue (U : QCircuit) (H : Ham) :
    (Objective.expectationValue U H).topBound = true :=
  topBound_mk_none _

theorem topBound_constO (q : ℚ) : (constO q).topBound = true := rfl

theorem topBound_transfExpr (args : List Argument) (t : Option Expr)
    (h : (Objective.mk args t).topBound = true) :
    (transfExpr args.length t).bound args.length = true := h

theorem topBound_addO (a b : Objective) (ha : a.topBound = true)
    (hb : b.topBound = true) : (a.addO b).topBound = true := by
  obtain ⟨la, ta⟩ := a
  obtain ⟨lb, tb⟩ := b
  simp only [Objective.topBound] at ha hb
  simp only [Objective.addO, Objective.args, Objective.transformation,
    Objective.topBound, transfExpr, Expr.bound, Bool.and_eq_true, List.length_append]
  constructor
  · exact Expr.bound_mono _ la.length _ (Nat.le_add_right _ _) ha
  · have := Expr.bound_shiftIdx _ lb.length la.length hb
    rwa [Nat.add_comm lb.length la.length] at this

theorem topBound_mulO (a b : Objective) (ha : a.topBound = true)
    (hb : b.topBound = true) : (a.mulO b).topBound = true := by
  obtain ⟨la, ta⟩ := a
  obtain ⟨lb, tb⟩ := b
  simp only [Objective.topBound] at ha hb
  simp only [Objective.mulO, Objective.args, Objective.transformation,
    Objective.topBound, transfExpr, Expr.bound, Bool.and_eq_true, List.length_append]
  constructor
  · exact Expr.bound_mono _ la.length _ (Nat.le_add_right _ _) ha
  · have := Expr.bound_shiftIdx _ lb.length la.length hb
    rwa [Nat.add_comm lb.length la.length] at this

theorem topBound_smulO (a : Objective) (w : ℚ) (ha : a.topBound = true) :
    (a.smulO w).topBound = true := by
  obtain ⟨la, ta⟩ := a
  simp only [Objective.topBound] at ha
  simp only [Objective.smulO, Objective.args, Objective.transformation,
    Objective.topBound, transfExpr, Expr.bound, Bool.and_eq_true]
  exact ⟨trivial, ha⟩

/-- Well-boundedness of a number-or-objective value. -/
def GradVal.topBoundGV : GradVal → Bool
  | .num _ => true
  | .obj O => O.topBound

theorem evalGV_mulGV (ev : EvOracle) (σ : TqVariable → ℝ) (x y : GradVal)
    (hx : x.topBoundGV = true) :
    (mulGV x y).evalGV ev σ = x.evalGV ev σ * y.evalGV ev σ := by
  cases x with
  | num a =>
      cases y with
      | num b => simp [mulGV, GradVal.evalGV]
      | obj B => simp [mulGV, GradVal.evalGV, evalO_smulO]
  | obj A =>
      cases y with
      | num b =>
          simp only [mulGV, GradVal.evalGV, evalO_smulO]
          ring
      | obj B =>
          simp only [GradVal.topBoundGV] at hx
          simp [mulGV, GradVal.evalGV, evalO_mulO ev σ A B hx]

theorem evalGV_addGV (ev : EvOracle) (σ : TqVariable → ℝ) (x y : GradVal)
    (hx : x.topBoundGV = true) :
    (addGV x y).evalGV ev σ = x.evalGV ev σ + y.evalGV ev σ := by
  cases x with
  | num a =>
      cases y with
      | num b => simp [addGV, GradVal.evalGV]
      | obj B =>
          simp [addGV, GradVal.evalGV, evalO_addO ev σ _ B (topBound_constO a),
            evalO_constO]
  | obj A =>
      simp only [GradVal.topBoundGV] at hx
      cases y with
      | num b =>
          simp [addGV, GradVal.evalGV, evalO_addO ev σ A _ hx, evalO_constO]
      | obj B =>
          simp [addGV, GradVal.evalGV, evalO_addO ev σ A B hx]

theorem topBoundGV_mulGV (x y : GradVal) (hx : x.topBoundGV = true)
    (hy : y.topBoundGV = true) : (mulGV x y).topBoundGV = true := by
  cases x with
  | num a =>
      cases y with
      | num b => rfl
      | obj B => exact topBound_smulO B a hy
  | obj A =>
      cases y with
      | num b => exact topBound_smulO A b hx
      | obj B => exact topBound_mulO A B hx hy

theorem topBoundGV_addGV (x y : GradVal) (hx : x.topBoundGV = true)
    (hy : y.topBoundGV = true) : (addGV x y).topBoundGV = true := by
  cases x with
  | num a =>
      cases y with
      | num b => rfl
      | obj B => exact topBound_addO _ B (topBound_constO a) hy
  | obj A =>
      cases y with
      | num b => exact topBound_addO A _ hx (topBound_constO b)
      | obj B => exact topBound_addO A B hx hy

/-! Invariants of the engine: every objective it constructs reads only its
own argument slots, and evaluation of the per-gate contribution. -/

theorem gaussFold_topBound (U : QCircuit) (i : Nat) (H : Ham) (c : ℚ) :
    ∀ (L : List (ℚ × Gate)) (acc : Objective), acc.topBound = true →
    (L.foldl (fun dOinc x =>
      dOinc.addO ((Objective.expectationValue (U.replaceGate i [x.2]) H).smulO (x.1 * c)))
      acc).topBound = true := by
  intro L
  induction L with
  | nil => intro acc hacc; simpa using hacc
  | cons p rest ih =>
      intro acc hacc
      simp only [List.foldl_cons]
      exact ih _ (topBound_addO _ _ hacc
        (topBound_smulO _ _ (topBound_expectationValue _ _)))

theorem gaussFold_eval (ev : EvOracle) (σ : TqVariable → ℝ) (U : QCircuit)
    (i : Nat) (H : Ham) (c : ℚ) :
    ∀ (L : List (ℚ × Gate)) (acc : Objective), acc.topBound = true →
    (L.foldl (fun dOinc x =>
      dOinc.addO ((Objective.expectationValue (U.replaceGate i [x.2]) H).smulO (x.1 * c)))
      acc).evalO ev σ =
      acc.evalO ev σ +
        (L.map (fun x => ((x.1 * c : ℚ) : ℝ) * ev (U.replaceGate i [x.2]) H σ)).sum := by
  intro L
  induction L with
  | nil => intro acc hacc; simp
  | cons p rest ih =>
      intro acc hacc
      simp only [List.foldl_cons, List.map_cons, List.sum_cons]
      rw [ih _ (topBound_addO _ _ hacc
        (topBound_smulO _ _ (topBound_expectationValue _ _)))]
      rw [evalO_addO ev σ _ _ hacc, evalO_smulO, evalO_expectationValue]
      ring

theorem gradGaussian_ok (U : QCircuit) (g : Gate) (i : Nat) (v : TqVariable)
    (H : Ham) (h : g.shiftedGates.isSome ∨ g.shift.isSome) :
    ∃ dO, gradGaussian U g i v H = .ok dO := by
  cases hres : gradGaussian U g i v H with
  | ok dO => exact ⟨dO, rfl⟩
  | error e =>
      exfalso
      unfold gradGaussian at hres
      cases hsg : g.shiftedGates with
      | some L => rw [hsg] at hres; exact Except.noConfusion hres
      | none =>
          cases hs : g.shift with
          | some s => rw [hsg, hs] at hres; exact Except.noConfusion hres
          | none => simp [hsg, hs] at h

theorem gradGaussian_topBound (U : QCircuit) (g : Gate) (i : Nat)
    (v : TqVariable) (H : Ham) (dO : Objective)
    (h : gradGaussian U g i v H = .ok dO) : dO.topBound = true := by
  cases hsg : g.shiftedGates with
  | some L =>
      simp only [gradGaussian, hsg, Except.ok.injEq] at h
      subst h
      exact gaussFold_topBound U i H _ L Objective.empty topBound_empty
  | none =>
      cases hs : g.shift with
      | some s =>
          simp only [gradGaussian, hsg, hs, Except.ok.injEq] at h
          subst h
          exact topBound_addO _ _ (topBound_smulO _ _ (topBound_mk_none _))
            (topBound_smulO _ _ (topBound_mk_none _))
      | none => simp [gradGaussian, hsg, hs] at h

theorem gradEVgo_topBound (U : QCircuit) (H : Ham) (v : TqVariable) :
    ∀ (l : List (Nat × Gate)) (dO : Objective), dO.topBound = true →
    ∀ g, gradEVgo U H v l dO = .ok g → g.topBoundGV = true := by
  intro l
  induction l with
  | nil =>
      intro dO hdO g hg
      simp only [gradEVgo, Except.ok.injEq] at hg
      subst hg
      exact hdO
  | cons p rest ih =>
      intro dO hdO g hg
      obtain ⟨idx, gg⟩ := p
      simp only [gradEVgo] at hg
      by_cases hc : gg.controlled
      · simp [hc] at hg
      · rw [if_neg hc] at hg
        by_cases hs : gg.shift.isNone
        · simp [hs] at hg
        · rw [if_neg hs] at hg
          cases hG : gradGaussian U gg idx v H with
          | error e => rw [hG] at hg; cases hg
          | ok dOinc =>
              rw [hG] at hg
              exact ih _ (topBound_addO _ _ hdO
                (gradGaussian_topBound U gg idx v H dOinc hG)) g hg

theorem gradEV_topBound (E : ExpV) (v : TqVariable) (g : GradVal)
    (h : gradExpectationValue E v = .ok g) : g.topBoundGV = true := by
  unfold gradExpectationValue at h
  by_cases hv : E.U.verify = false
  · simp [hv] at h
  · rw [if_neg hv] at h
    by_cases hm : v ∈ E.U.extractVariables
    · rw [if_pos hm] at h
      exact gradEVgo_topBound E.U E.H v _ Objective.empty topBound_empty g h
    · rw [if_neg hm] at h
      rw [Except.ok.injEq] at h
      subst h
      rfl

theorem gradEVgo_not_num (U : QCircuit) (H : Ham) (v : TqVariable) :
    ∀ (l : List (Nat × Gate)) (dO : Objective) (q : ℚ),
    gradEVgo U H v l dO ≠ .ok (.num q) := by
  intro l
  induction l with
  | nil => intro dO q h; simp [gradEVgo] at h
  | cons p rest ih =>
      intro dO q h
      obtain ⟨idx, gg⟩ := p
      simp only [gradEVgo] at h
      by_cases hc : gg.controlled
      · simp [hc] at h
      · rw [if_neg hc] at h
        by_cases hs : gg.shift.isNone
        · simp [hs] at h
        · rw [if_neg hs] at h
          cases hG : gradGaussian U gg idx v H with
          | error e => rw [hG] at h; cases h
          | ok dOinc => rw [hG] at h; exact ih _ q h

theorem lookupEV_coherent (v : TqVariable) :
    ∀ (cache : List (ExpV × GradVal)) (e : ExpV) (x : GradVal),
    (∀ p ∈ cache, gradExpectationValue p.1 v = .ok p.2) →
    lookupEV cache e = some x → gradExpectationValue e v = .ok x := by
  intro cache
  induction cache with
  | nil => intro e x _ h; simp [lookupEV] at h
  | cons p r ih =>
      intro e x hco h
      obtain ⟨k, y⟩ := p
      simp only [lookupEV] at h
      by_cases hk : k = e
      · rw [if_pos hk] at h
        have hyx : y = x := Option.some.inj h
        rw [← hk, ← hyx]
        exact hco (k, y) (List.mem_cons_self _ _)
      · rw [if_neg hk] at h
        exact ih e x (fun q hq => hco q (List.mem_cons_of_mem _ hq)) h

theorem gradEV_ok_num (E : ExpV) (v : TqVariable) (q : ℚ)
    (h : gradExpectationValue E v = .ok (.num q)) : q = 0 := by
  unfold gradExpectationValue at h
  by_cases hv : E.U.verify = false
  · simp [hv] at h
  · rw [if_neg hv] at h
    by_cases hm : v ∈ E.U.extractVariables
    · rw [if_pos hm] at h
      exact absurd h (gradEVgo_not_num E.U E.H v _ Objective.empty q)
    · rw [if_neg hm] at h
      have := congrArg (fun r => match r with
        | Except.ok (GradVal.num x) => x | _ => q) h
      simpa using this.symm

/-- The memoized loop of `__grad_objective` computes the same result as the
cache-free accumulation over the arguments whose inner derivative is not
the dropped literal zero: the dictionary only ever replays the pure
`__grad_expectationvalue` result recorded for a structurally equal
expectation value, and dropped terms leave the accumulator untouched. -/
theorem gradObjectiveGo_eq_accum (v : TqVariable) (args : List Argument)
    (t : Option Expr) :
    ∀ (rem : List Argument) (i : Nat) (cache : List (ExpV × GradVal))
      (acc : Option GradVal),
    (∀ p ∈ cache, gradExpectationValue p.1 v = .ok p.2) →
    gradObjectiveGo v args t i rem cache acc =
      accumTerms v args t
        ((rem.enumFrom i).filter fun p => !(isZeroResult (gradInnerArg p.2 v))) acc := by
  intro rem
  induction rem with
  | nil =>
      intro i cache acc _
      cases acc with
      | none => simp [gradObjectiveGo, accumTerms, List.enumFrom]
      | some d => simp [gradObjectiveGo, accumTerms, List.enumFrom]
  | cons a rest ih =>
      intro i cache acc hco
      cases a with
      | var w =>
          have hinner : gradInnerArg (.var w) v = .ok (.num (if w = v then 1 else 0)) := by
            simp [gradInnerArg]
          by_cases hz : (GradVal.num (if w = v then 1 else 0)).isZeroNum = true
          · have hfilter : ((Argument.var w :: rest).enumFrom i).filter
                  (fun p => !(isZeroResult (gradInnerArg p.2 v)))
                = (rest.enumFrom (i + 1)).filter
                  (fun p => !(isZeroResult (gradInnerArg p.2 v))) := by
              simp [List.filter_cons, hinner, isZeroResult, hz]
            rw [hfilter]
            simp only [gradObjectiveGo, hinner]
            rw [accStep.eq_def, if_pos hz]
            exact ih (i + 1) cache acc hco
          · have hzf : (GradVal.num (if w = v then 1 else 0)).isZeroNum = false :=
              Bool.eq_false_iff.mpr hz
            have hfilter : ((Argument.var w :: rest).enumFrom i).filter
                  (fun p => !(isZeroResult (gradInnerArg p.2 v)))
                = (i, Argument.var w) :: (rest.enumFrom (i + 1)).filter
                  (fun p => !(isZeroResult (gradInnerArg p.2 v))) := by
              simp [List.filter_cons, hinner, isZeroResult, hzf]
            rw [hfilter, accumTerms]
            simp only [hinner]
            simp only [gradObjectiveGo, hinner]
            rw [accStep.eq_def, if_neg hz]
            exact ih (i + 1) cache _ hco
      | obj O =>
          have hinner : gradInnerArg (.obj O) v = gradObjective O v := by
            simp [gradInnerArg]
          cases hres : gradObjective O v with
          | error e =>
              have hfilter : ((Argument.obj O :: rest).enumFrom i).filter
                    (fun p => !(isZeroResult (gradInnerArg p.2 v)))
                  = (i, Argument.obj O) :: (rest.enumFrom (i + 1)).filter
                    (fun p => !(isZeroResult (gradInnerArg p.2 v))) := by
                simp [List.filter_cons, hinner, hres, isZeroResult]
              rw [hfilter, accumTerms]
              simp only [hinner, hres]
              simp only [gradObjectiveGo, hinner, hres]
          | ok innerV =>
              by_cases hz : innerV.isZeroNum = true
              · have hfilter : ((Argument.obj O :: rest).enumFrom i).filter
                      (fun p => !(isZeroResult (gradInnerArg p.2 v)))
                    = (rest.enumFrom (i + 1)).filter
                      (fun p => !(isZeroResult (gradInnerArg p.2 v))) := by
                  simp [List.filter_cons, hinner, hres, isZeroResult, hz]
                rw [hfilter]
                simp only [gradObjectiveGo, hinner, hres]
                rw [accStep.eq_def, if_pos hz]
                exact ih (i + 1) cache acc hco
              · have hzf : innerV.isZeroNum = false := Bool.eq_false_iff.mpr hz
                have hfilter : ((Argument.obj O :: rest).enumFrom i).filter
                      (fun p => !(isZeroResult (gradInnerArg p.2 v)))
                    = (i, Argument.obj O) :: (rest.enumFrom (i + 1)).filter
                      (fun p => !(isZeroResult (gradInnerArg p.2 v))) := by
                  simp [List.filter_cons, hinner, hres, isZeroResult, hzf]
                rw [hfilter, accumTerms]
                simp only [hinner, hres]
                simp only [gradObjectiveGo, hinner, hres]
                rw [accStep.eq_def, if_neg hz]
                exact ih (i + 1) cache _ hco
      | ev e =>
          have hinner : gradInnerArg (.ev e) v = gradExpectationValue e v := by
            simp [gradInnerArg]
          cases hlk : lookupEV cache e with
          | some x =>
              have hx : gradExpectationValue e v = .ok x :=
                lookupEV_coherent v cache e x hco hlk
              by_cases hz : x.isZeroNum = true
              · have hfilter : ((Argument.ev e :: rest).enumFrom i).filter
                      (fun p => !(isZeroResult (gradInnerArg p.2 v)))
                    = (rest.enumFrom (i + 1)).filter
                      (fun p => !(isZeroResult (gradInnerArg p.2 v))) := by
                  simp [List.filter_cons, hinner, hx, isZeroResult, hz]
                rw [hfilter]
                simp only [gradObjectiveGo, hlk]
                rw [accStep.eq_def, if_pos hz]
                exact ih (i + 1) cache acc hco
              · have hzf : x.isZeroNum = false := Bool.eq_false_iff.mpr hz
                have hfilter : ((Argument.ev e :: rest).enumFrom i).filter
                      (fun p => !(isZeroResult (gradInnerArg p.2 v)))
                    = (i, Argument.ev e) :: (rest.enumFrom (i + 1)).filter
                      (fun p => !(isZeroResult (gradInnerArg p.2 v))) := by
                  simp [List.filter_cons, hinner, hx, isZeroResult, hzf]
                rw [hfilter, accumTerms]
                simp only [hinner, hx]
                simp only [gradObjectiveGo, hlk]
                rw [accStep.eq_def, if_neg hz]
                exact ih (i + 1) cache _ hco
          | none =>
              cases hres : gradExpectationValue e v with
              | error err =>
                  have hfilter : ((Argument.ev e :: rest).enumFrom i).filter
                        (fun p => !(isZeroResult (gradInnerArg p.2 v)))
                      = (i, Argument.ev e) :: (rest.enumFrom (i + 1)).filter
                        (fun p => !(isZeroResult (gradInnerArg p.2 v))) := by
                    simp [List.filter_cons, hinner, hres, isZeroResult]
                  rw [hfilter, accumTerms]
                  simp only [hinner, hres]
                  simp only [gradObjectiveGo, hlk, hres]
              | ok innerV =>
                  have hco2 : ∀ p ∈ (e, innerV) :: cache,
                      gradExpectationValue p.1 v = .ok p.2 := by
                    intro p hp
                    rcases List.mem_cons.mp hp with hp1 | hp2
                    · rw [hp1]; exact hres
                    · exact hco p hp2
                  by_cases hz : innerV.isZeroNum = true
                  · have hfilter : ((Argument.ev e :: rest).enumFrom i).filter
                          (fun p => !(isZeroResult (gradInnerArg p.2 v)))
                        = (rest.enumFrom (i + 1)).filter
                          (fun p => !(isZeroResult (gradInnerArg p.2 v))) := by
                      simp [List.filter_cons, hinner, hres, isZeroResult, hz]
                    rw [hfilter]
                    simp only [gradObjectiveGo, hlk, hres]
                    rw [accStep.eq_def, if_pos hz]
                    exact ih (i + 1) _ acc hco2
                  · have hzf : innerV.isZeroNum = false := Bool.eq_false_iff.mpr hz
                    have hfilter : ((Argument.ev e :: rest).enumFrom i).filter
                          (fun p => !(isZeroResult (gradInnerArg p.2 v)))
                        = (i, Argument.ev e) :: (rest.enumFrom (i + 1)).filter
                          (fun p => !(isZeroResult (gradInnerArg p.2 v))) := by
                      simp [List.filter_cons, hinner, hres, isZeroResult, hzf]
                    rw [hfilter, accumTerms]
                    simp only [hinner, hres]
                    simp only [gradObjectiveGo, hlk, hres]
                    rw [accStep.eq_def, if_neg hz]
                    exact ih (i + 1) _ _ hco2

theorem mem_enumFrom_snd {α : Type} :
    ∀ (l : List α) (i : Nat) (p : Nat × α), p ∈ l.enumFrom i → p.2 ∈ l := by
  intro l
  induction l with
  | nil => intro i p hp; simp [List.enumFrom] at hp
  | cons a r ih =>
      intro i p hp
      rw [List.enumFrom_cons] at hp
      rcases List.mem_cons.mp hp with h1 | h2
      · rw [h1]; exact List.mem_cons_self _ _
      · exact List.mem_cons_of_mem _ (ih (i + 1) p h2)

theorem gradAll_ok (comp : GIn → TqVariable → GIn) (objective : GIn)
    (noCompile : Bool) :
    ∀ (l : List TqVariable),
    (∀ k ∈ l, ∃ gk, grad1 comp objective k noCompile = .ok gk) →
    ∃ m, gradAll comp objective noCompile l = .ok m ∧ m.map Prod.fst = l ∧
      ∀ p ∈ m, grad1 comp objective p.1 noCompile = .ok p.2 := by
  intro l
  induction l with
  | nil => intro _; exact ⟨[], rfl, rfl, by simp⟩
  | cons k rest ih =>
      intro h
      obtain ⟨gk, hgk⟩ := h k (List.mem_cons_self _ _)
      obtain ⟨m, hm, hfst, hval⟩ := ih (fun x hx => h x (List.mem_cons_of_mem _ hx))
      refine ⟨(k, gk) :: m, ?_, ?_, ?_⟩
      · simp only [gradAll, hgk, hm]
      · simp [hfst]
      · intro p hp
        rcases List.mem_cons.mp hp with h1 | h2
        · rw [h1]; exact hgk
        · exact hval p h2

theorem gradEVgo_error_of_bad (U : QCircuit) (H : Ham) (v : TqVariable) :
    ∀ (l : List (Nat × Gate)) (dO : Objective),
    (∃ p ∈ l, p.2.controlled = true ∨ p.2.shift = none) →
    ∃ e, gradEVgo U H v l dO = .error e := by
  intro l
  induction l with
  | nil => intro dO h; simp at h
  | cons p rest ih =>
      intro dO h
      obtain ⟨idx, g⟩ := p
      by_cases hc : g.controlled = true
      · exact ⟨.controlledGate, by simp [gradEVgo, hc]⟩
      · by_cases hs : g.shift = none
        · refine ⟨.noShift, ?_⟩
          simp [gradEVgo, hc, hs, Option.isNone]
        · rcases h with ⟨q, hq, hbad⟩
          rcases List.mem_cons.mp hq with h1 | h2
          · exfalso
            rw [h1] at hbad
            rcases hbad with h3 | h3
            · exact hc h3
            · exact hs h3
          · have hsome : g.shift.isSome := by
              cases hov : g.shift with
              | none => exact absurd hov hs
              | some s => rfl
            obtain ⟨dOinc, hdOinc⟩ := gradGaussian_ok U g idx v H (Or.inr hsome)
            obtain ⟨e, he⟩ := ih (dO.addO dOinc) ⟨q, h2, hbad⟩
            refine ⟨e, ?_⟩
            have hnn : g.shift.isNone = false := by
              cases hov : g.shift with
              | none => exact absurd hov hs
              | some s => rfl
            simp [gradEVgo, hc, hnn, hdOinc]
            exact he
  
theorem gradEVgo_ok_of_good (U : QCircuit) (H : Ham) (v : TqVariable) :
    ∀ (l : List (Nat × Gate)) (dO : Objective),
    (∀ p ∈ l, p.2.controlled = false ∧ p.2.shift.isSome) →
    ∃ g, gradEVgo U H v l dO = .ok g := by
  intro l
  induction l with
  | nil => intro dO _; exact ⟨.obj dO, by simp [gradEVgo]⟩
  | cons p rest ih =>
      intro dO h
      obtain ⟨idx, g⟩ := p
      obtain ⟨hc, hs⟩ := h (idx, g) (List.mem_cons_self _ _)
      obtain ⟨dOinc, hdOinc⟩ := gradGaussian_ok U g idx v H (Or.inr hs)
      obtain ⟨r, hr⟩ := ih (dO.addO dOinc) (fun q hq => h q (List.mem_cons_of_mem _ hq))
      refine ⟨r, ?_⟩
      have hnn : g.shift.isNone = false := by
        cases hov : g.shift with
        | none => rw [hov] at hs; cases hs
        | some s => rfl
      simp [gradEVgo, hc, hnn, hdOinc]
      exact hr

/-- C3: for every objective and every Variable not among its free
variables, `grad` returns exactly the literal numeric zero (a plain
number, not an Objective) as a normal value, not an error
(gradient.py lines 36-37). -/
theorem claim_C3_zero_on_absent_variable (comp : GIn → TqVariable → GIn)
    (objective : GIn) (v : TqVariable) (noCompile : Bool)
    (h : v ∉ objective.extractVarsIn) :
    grad1 comp objective v noCompile = .ok (.num 0) := by
  simp [grad1, h]

/-- Witness for C3 at a concrete objective over the single variable a and
the absent target b. -/
theorem claim_C3_witness :
    "b" ∉ (GIn.objI (.mk [.var "a"] none)).extractVarsIn ∧
    grad1 (fun g _ => g) (GIn.objI (.mk [.var "a"] none)) "b" false = .ok (.num 0) := by
  have habs : "b" ∉ (GIn.objI (.mk [.var "a"] none)).extractVarsIn := by
    simp [GIn.extractVarsIn, Objective.extractVariables, argumentsVars, Argument.varsA]
  exact ⟨habs, claim_C3_zero_on_absent_variable _ _ _ _ habs⟩

/-- C7: when the target variable occurs in the objective but is no longer
present after the compiler pre-pass, `grad` raises the variable-lost error
instead of returning a zero or a gradient of the compiled form
(gradient.py lines 51-52). -/
theorem claim_C7_variable_lost_after_compile_errors (comp : GIn → TqVariable → GIn)
    (objective : GIn) (v : TqVariable)
    (h1 : v ∈ objective.extractVarsIn)
    (h2 : v ∉ (comp objective v).extractVarsIn) :
    grad1 comp objective v false = .error .gradLost := by
  simp [grad1, h1, h2]

/-- Witness for C7 with a compiler oracle that discards the variable. -/
theorem claim_C7_witness :
    grad1 (fun _ _ => GIn.objI (.mk [] none)) (GIn.objI (.mk [.var "a"] none))
      "a" false = .error .gradLost := by
  refine claim_C7_variable_lost_after_compile_errors _ _ _ ?_ ?_
  · simp [GIn.extractVarsIn, Objective.extractVariables, argumentsVars, Argument.varsA]
  · simp [GIn.extractVarsIn, Objective.extractVariables, argumentsVars]

/-- C10: expectation-value differentiation checks the unitary validity
predicate before the absent-variable fast path, so an invalid unitary is
an error for every target variable, also one that does not occur in the
unitary at all (gradient.py lines 141-148). -/
theorem claim_C10_invalid_unitary_before_fast_path (E : ExpV) (v : TqVariable)
    (h : E.U.verify = false) :
    gradExpectationValue E v = .error .invalidUnitary := by
  simp [gradExpectationValue, h]

/-- Witness for C10: an invalid empty unitary errors even though the
target variable has no occurrence in it. -/
theorem claim_C10_witness :
    "a" ∉ (QCircuit.mk [] false).extractVariables ∧
    gradExpectationValue ⟨⟨[], false⟩, "H"⟩ "a" = .error .invalidUnitary :=
  ⟨by simp [QCircuit.extractVariables],
   claim_C10_invalid_unitary_before_fast_path ⟨⟨[], false⟩, "H"⟩ "a" rfl⟩

/-- C5: the chain-rule accumulator of `__grad_objective` equals the
cache-free accumulation over exactly those arguments whose inner
derivative is not the literal zero (dropped terms contribute nothing),
and when every argument yields a dropped zero term it raises the fatal
accumulator error instead of returning a zero result
(gradient.py lines 95-105). -/
theorem claim_C5_zero_terms_dropped_all_zero_errors
    (v : TqVariable) (args : List Argument) (t : Option Expr) :
    gradObjective (.mk args t) v =
      accumTerms v args t
        ((args.enumFrom 0).filter fun p => !(isZeroResult (gradInnerArg p.2 v))) none
    ∧ ((∀ a ∈ args, gradInnerArg a v = .ok (.num 0)) →
      gradObjective (.mk args t) v = .error .noneCaught) := by
  have hmain : gradObjective (.mk args t) v =
      accumTerms v args t
        ((args.enumFrom 0).filter fun p => !(isZeroResult (gradInnerArg p.2 v))) none := by
    have := gradObjectiveGo_eq_accum v args t args 0 [] none (by simp)
    simpa [gradObjective] using this
  refine ⟨hmain, fun hall => ?_⟩
  have hfil : ((args.enumFrom 0).filter
      fun p => !(isZeroResult (gradInnerArg p.2 v))) = [] := by
    rw [List.filter_eq_nil_iff]
    intro p hp
    have hmem : p.2 ∈ args := mem_enumFrom_snd args 0 p hp
    rw [hall p.2 hmem]
    simp [isZeroResult, GradVal.isZeroNum]
  rw [hmain, hfil]
  simp [accumTerms]

/-- Witness for C5: a mixed zero/nonzero argument list for the first part
evaluated concretely, and an all-zero argument list hitting the fatal
error for the second part. -/
theorem claim_C5_witness :
    gradObjective (.mk [.var "b", .var "a"] none) "a" =
      accumTerms "a" [.var "b", .var "a"] none
        (([Argument.var "b", Argument.var "a"].enumFrom 0).filter
          fun p => !(isZeroResult (gradInnerArg p.2 "a"))) none
    ∧ gradObjective (.mk [.var "b"] none) "a" = .error .noneCaught := by
  constructor
  · exact (claim_C5_zero_terms_dropped_all_zero_errors "a" [.var "b", .var "a"] none).1
  · refine (claim_C5_zero_terms_dropped_all_zero_errors "a" [.var "b"] none).2 ?_
    intro a ha
    have : a = Argument.var "b" := by simpa using ha
    rw [this]
    simp [gradInnerArg, show ("b" : String) ≠ "a" from by decide]

/-- C6: while differentiating an expectation value whose unitary contains
the target variable, a controlled occurrence gate or an occurrence gate
without the shift attribute makes differentiation raise an error; when no
occurrence gate is controlled and every occurrence gate carries the shift
attribute, the error branch is unreachable and a value is returned
(gradient.py lines 150-159). -/
theorem claim_C6_controlled_or_shiftless_gate_errors (E : ExpV) (v : TqVariable)
    (hval : E.U.verify = true) (hvar : v ∈ E.U.extractVariables) :
    ((∃ p ∈ E.U.parameterMap v, p.2.controlled = true ∨ p.2.shift = none) →
      ∃ e, gradExpectationValue E v = .error e)
    ∧ ((∀ p ∈ E.U.parameterMap v, p.2.controlled = false ∧ p.2.shift.isSome) →
      ∃ g, gradExpectationValue E v = .ok g) := by
  have hrw : gradExpectationValue E v
      = gradEVgo E.U E.H v (E.U.parameterMap v) Objective.empty := by
    simp [gradExpectationValue, hval, hvar]
  constructor
  · intro hbad
    rw [hrw]
    exact gradEVgo_error_of_bad E.U E.H v _ _ hbad
  · intro hgood
    rw [hrw]
    exact gradEVgo_ok_of_good E.U E.H v _ _ hgood

/-- Witness for C6: a controlled occurrence gate errors, an eligible
occurrence gate succeeds. -/
theorem claim_C6_witness :
    (∃ e, gradExpectationValue
      ⟨⟨[Gate.mk (.var "a") (some 1) none true], true⟩, "H"⟩ "a" = .error e)
    ∧ (∃ g, gradExpectationValue
      ⟨⟨[Gate.mk (.var "a") (some 1) none false], true⟩, "H"⟩ "a" = .ok g) := by
  constructor
  · refine (claim_C6_controlled_or_shiftless_gate_errors
      ⟨⟨[Gate.mk (.var "a") (some 1) none true], true⟩, "H"⟩ "a" rfl
      (by decide)).1 ?_
    exact ⟨(0, Gate.mk (.var "a") (some 1) none true), by decide, Or.inl rfl⟩
  · refine (claim_C6_controlled_or_shiftless_gate_errors
      ⟨⟨[Gate.mk (.var "a") (some 1) none false], true⟩, "H"⟩ "a" rfl
      (by decide)).2 ?_
    intro p hp
    have hmap : (QCircuit.mk [Gate.mk (.var "a") (some 1) none false]
        true).parameterMap "a" = [(0, Gate.mk (.var "a") (some 1) none false)] := by
      decide
    rw [hmap] at hp
    have hp2 : p = (0, Gate.mk (.var "a") (some 1) none false) := by
      simpa using hp
    rw [hp2]
    exact ⟨rfl, rfl⟩

/-- C4: for an Objective input containing the target variable, when
pre-compilation is not skipped, the engine first applies the compiler
pre-pass to the input and then decomposes the compiled form, not the
original: the general branch runs the chain rule on the compiled
objective, the single-expectation-value branch differentiates the
expectation value extracted from the compiled objective
(gradient.py lines 39-61). -/
theorem claim_C4_decomposes_compiled_form (comp : GIn → TqVariable → GIn)
    (O C : Objective) (v : TqVariable)
    (h1 : v ∈ (GIn.objI O).extractVarsIn)
    (h2 : comp (GIn.objI O) v = GIn.objI C)
    (h3 : v ∈ (GIn.objI C).extractVarsIn) :
    (O.isExpectationValue = false →
      grad1 comp (GIn.objI O) v false = gradObjective C v)
    ∧ (∀ E, O.isExpectationValue = true → C.args.getLast? = some (.ev E) →
      grad1 comp (GIn.objI O) v false = gradExpectationValue E v) := by
  constructor
  · intro hev
    simp [grad1, h1, h2, h3, hev]
  · intro E hev hlast
    simp [grad1, h1, h2, h3, hev, hlast]

/-- Witness for C4: a compiler oracle returning a fixed compiled objective;
the result is the decomposition of that compiled form in both branches. -/
theorem claim_C4_witness :
    grad1 (fun _ _ => GIn.objI (.mk [.var "a", .var "a"] none))
      (GIn.objI (.mk [.var "a"] none)) "a" false
      = gradObjective (.mk [.var "a", .var "a"] none) "a"
    ∧ grad1 (fun _ _ => GIn.objI (.mk
        [.ev ⟨⟨[Gate.mk (.var "a") (some (1/2)) none false], true⟩, "H"⟩] none))
      (GIn.objI (.mk [.ev ⟨⟨[Gate.mk (.var "a") (some 1) none false], true⟩, "H"⟩] none))
      "a" false
      = gradExpectationValue ⟨⟨[Gate.mk (.var "a") (some (1/2)) none false], true⟩, "H"⟩ "a" := by
  constructor
  · exact (claim_C4_decomposes_compiled_form
      (fun _ _ => GIn.objI (.mk [.var "a", .var "a"] none))
      (Objective.mk [.var "a"] none)
      (Objective.mk [.var "a", .var "a"] none) "a"
      (by simp [GIn.extractVarsIn, Objective.extractVariables, argumentsVars,
        Argument.varsA])
      rfl
      (by simp [GIn.extractVarsIn, Objective.extractVariables, argumentsVars,
        Argument.varsA])).1 rfl
  · exact (claim_C4_decomposes_compiled_form
      (fun _ _ => GIn.objI (.mk
        [.ev ⟨⟨[Gate.mk (.var "a") (some (1/2)) none false], true⟩, "H"⟩] none))
      (Objective.mk [.ev ⟨⟨[Gate.mk (.var "a") (some 1) none false], true⟩, "H"⟩] none)
      (Objective.mk [.ev ⟨⟨[Gate.mk (.var "a") (some (1/2)) none false], true⟩, "H"⟩] none)
      "a"
      (by simp [GIn.extractVarsIn, Objective.extractVariables, argumentsVars,
        Argument.varsA, QCircuit.extractVariables, Gate.parameter, Param.vars])
      rfl
      (by simp [GIn.extractVarsIn, Objective.extractVariables, argumentsVars,
        Argument.varsA, QCircuit.extractVariables, Gate.parameter, Param.vars])).2
      ⟨⟨[Gate.mk (.var "a") (some (1/2)) none false], true⟩, "H"⟩ rfl rfl

/-- C8: with no target variable, `grad` fails on an objective without free
variables, and otherwise returns the mapping whose keys are exactly the
objective's free variables and whose value at each key k is the
single-variable gradient for k (gradient.py lines 21-32). -/
theorem claim_C8_all_variables_mapping (comp : GIn → TqVariable → GIn)
    (objective : GIn) (noCompile : Bool) :
    (objective.extractVarsIn = [] →
      grad comp objective none noCompile = .error .noVariables)
    ∧ (objective.extractVarsIn ≠ [] →
      (∀ k ∈ objective.extractVarsIn, ∃ gk, grad1 comp objective k noCompile = .ok gk) →
      ∃ m, grad comp objective none noCompile = .ok (.map m)
        ∧ m.map Prod.fst = objective.extractVarsIn
        ∧ ∀ p ∈ m, grad1 comp objective p.1 noCompile = .ok p.2) := by
  constructor
  · intro h
    simp [grad, h]
  · intro hne hall
    obtain ⟨m, hm, hfst, hval⟩ := gradAll_ok comp objective noCompile _ hall
    refine ⟨m, ?_, hfst, hval⟩
    have hne2 : objective.extractVarsIn.isEmpty = false := by
      cases hl : objective.extractVarsIn with
      | nil => exact absurd hl hne
      | cons a rtl => rfl
    simp [grad, hne2, hm]

/-- Witness for C8 on an objective with the single free variable a. -/
theorem claim_C8_witness :
    ∃ m, grad (fun g _ => g) (GIn.objI (.mk [.var "a"] none)) none true
        = .ok (.map m)
      ∧ m.map Prod.fst = (GIn.objI (Objective.mk [.var "a"] none)).extractVarsIn
      ∧ ∀ p ∈ m, grad1 (fun g _ => g) (GIn.objI (.mk [.var "a"] none)) p.1 true
          = .ok p.2 := by
  have hvars : (GIn.objI (Objective.mk [.var "a"] none)).extractVarsIn = ["a"] := by
    simp [GIn.extractVarsIn, Objective.extractVariables, argumentsVars, Argument.varsA]
  have hg : gradObjective (.mk [.var "a"] none) "a" = .ok (.num 1) := by
    simp [gradObjective, gradObjectiveGo, gradInnerArg, accStep, outerOf,
      GradVal.isZeroNum, mulGV]
  have hg1 : grad1 (fun g _ => g) (GIn.objI (.mk [.var "a"] none)) "a" true
      = .ok (.num 1) := by
    simp [grad1, hvars, Objective.isExpectationValue, hg]
  refine (claim_C8_all_variables_mapping (fun g _ => g)
    (GIn.objI (.mk [.var "a"] none)) true).2 (by rw [hvars]; simp) ?_
  intro k hk
  rw [hvars] at hk
  have hka : k = "a" := by simpa using hk
  rw [hka]
  exact ⟨.num 1, hg1⟩

/-- C9: heap model of the simple-shift construction (gradient.py lines
198-203): building the two shifted gate variants deep-copies the original
gate to two fresh, distinct addresses and mutates only the copies, so
every gate stored before the call, including the original at position r,
is unchanged afterwards, and the copies are structurally independent
gates holding the shifted parameters. -/
theorem claim_C9_shifted_copies_leave_original_unchanged (store : List Gate)
    (r : Nat) (s : ℚ) (_hr : r < store.length) :
    (∀ j, j < store.length →
      (simpleShiftAlloc store r s).1[j]? = store[j]?)
    ∧ (simpleShiftAlloc store r s).2.1 ≠ (simpleShiftAlloc store r s).2.2
    ∧ store.length ≤ (simpleShiftAlloc store r s).2.1
    ∧ store.length ≤ (simpleShiftAlloc store r s).2.2
    ∧ (simpleShiftAlloc store r s).1[(simpleShiftAlloc store r s).2.1]? =
        some ((store.getD r (.mk (.const ⟨0, 0⟩) none none false)).withParameter
          (Param.add (store.getD r (.mk (.const ⟨0, 0⟩) none none false)).parameter
            ⟨0, (4 * s)⁻¹⟩))
    ∧ (simpleShiftAlloc store r s).1[(simpleShiftAlloc store r s).2.2]? =
        some ((store.getD r (.mk (.const ⟨0, 0⟩) none none false)).withParameter
          (Param.add (store.getD r (.mk (.const ⟨0, 0⟩) none none false)).parameter
            ⟨0, -(4 * s)⁻¹⟩)) := by
  set gd := store.getD r (Gate.mk (.const ⟨0, 0⟩) none none false) with hgd
  have hg1 : (store ++ [gd]).getD store.length gd = gd := by
    rw [List.getD_append_right _ _ _ _ (Nat.le_refl _), Nat.sub_self]
    rfl
  have hg2 : (((store ++ [gd]).set store.length (gd.withParameter
        (Param.add gd.parameter ⟨0, (4 * s)⁻¹⟩))) ++ [gd]).getD
        (store.length + 1) gd = gd := by
    rw [List.getD_append_right _ _ _ _ (by simp)]
    simp
  have hform : simpleShiftAlloc store r s =
      ((((store ++ [gd]).set store.length
          (gd.withParameter (Param.add gd.parameter ⟨0, (4 * s)⁻¹⟩))) ++ [gd]).set
        (store.length + 1) (gd.withParameter (Param.add gd.parameter ⟨0, -(4 * s)⁻¹⟩)),
       store.length, store.length + 1) := by
    simp only [simpleShiftAlloc]
    rw [← hgd, hg1, hg2]
  refine ⟨?_, ?_, ?_, ?_, ?_, ?_⟩
  · intro j hj
    simp only [hform]
    rw [List.getElem?_set_ne (by omega)]
    rw [List.getElem?_append_left (by simp [List.length_set, List.length_append]; omega)]
    rw [List.getElem?_set_ne (by omega)]
    rw [List.getElem?_append_left (by omega)]
  · simp only [hform]
    omega
  · simp only [hform]
    exact Nat.le_refl _
  · simp only [hform]
    exact Nat.le_succ _
  · simp only [hform]
    rw [List.getElem?_set_ne (by omega)]
    rw [List.getElem?_append_left (by simp)]
    rw [List.getElem?_set_self (by simp)]
  · simp only [hform]
    rw [List.getElem?_set_self (by simp)]

/-- Witness for C9 on a one-gate store. -/
theorem claim_C9_witness :
    (simpleShiftAlloc [Gate.mk (.var "a") (some 1) none false] 0 1).1[0]?
      = [Gate.mk (.var "a") (some 1) none false][0]?
    ∧ (simpleShiftAlloc [Gate.mk (.var "a") (some 1) none false] 0 1).2.1
      ≠ (simpleShiftAlloc [Gate.mk (.var "a") (some 1) none false] 0 1).2.2 := by
  have happ := claim_C9_shifted_copies_leave_original_unchanged
    [Gate.mk (.var "a") (some 1) none false] 0 1 (by decide)
  exact ⟨happ.1 0 (by decide), happ.2.1⟩

/-- C1: the per-gate derivative contribution of `__grad_gaussian`
(gradient.py lines 169-214), with c the derivative of the gate's own
parameter with respect to the target variable.  Generalized case: the
value of the returned objective is the sum over the (weight, shifted gate)
pairs of weight * c times the expectation value of the unitary with
position i replaced by the shifted gate.  Simple case: the value is
s*c*Eplus - s*c*Eminus, where Eplus and Eminus are the expectation values
of the unitary with position i replaced by a copy of the gate whose
parameter is the original parameter plus, respectively minus, pi/(4*s)
(the last two conjuncts check the shifted parameters evaluate to exactly
theta plus and minus pi/(4*s)). -/
theorem claim_C1_per_gate_shift_rule (U : QCircuit) (g : Gate) (i : Nat)
    (v : TqVariable) (H : Ham) (ev : EvOracle) (σ : TqVariable → ℝ) :
    (∀ L, g.shiftedGates = some L →
      ∃ dO, gradGaussian U g i v H = .ok dO ∧
        dO.evalO ev σ =
          (L.map fun x => ((x.1 * gradInnerParam g.parameter v : ℚ) : ℝ) *
            ev (U.replaceGate i [x.2]) H σ).sum)
    ∧ (g.shiftedGates = none → ∀ s, g.shift = some s →
      (∃ dO, gradGaussian U g i v H = .ok dO ∧
        dO.evalO ev σ =
          ((s * gradInnerParam g.parameter v : ℚ) : ℝ) *
            ev (U.replaceGate i
              [g.withParameter (Param.add g.parameter ⟨0, (4 * s)⁻¹⟩)]) H σ
          - ((s * gradInnerParam g.parameter v : ℚ) : ℝ) *
            ev (U.replaceGate i
              [g.withParameter (Param.add g.parameter ⟨0, -(4 * s)⁻¹⟩)]) H σ)
      ∧ (g.withParameter (Param.add g.parameter ⟨0, (4 * s)⁻¹⟩)).parameter.eval σ
          = g.parameter.eval σ + Real.pi / (4 * (s : ℝ))
      ∧ (g.withParameter (Param.add g.parameter ⟨0, -(4 * s)⁻¹⟩)).parameter.eval σ
          = g.parameter.eval σ - Real.pi / (4 * (s : ℝ))) := by
  constructor
  · intro L hsg
    have hrun : gradGaussian U g i v H = .ok (L.foldl (fun dOinc x =>
        dOinc.addO ((Objective.expectationValue (U.replaceGate i [x.2]) H).smulO
          (x.1 * gradInnerParam g.parameter v))) Objective.empty) := by
      unfold gradGaussian
      rw [hsg]
    refine ⟨_, hrun, ?_⟩
    rw [gaussFold_eval ev σ U i H (gradInnerParam g.parameter v) L
      Objective.empty topBound_empty, evalO_empty]
    ring
  · intro hsg s hs
    refine ⟨?_, ?_, ?_⟩
    · have hrun : gradGaussian U g i v H = .ok
          (((Objective.mk [.ev ⟨U.replaceGate i
              [g.withParameter (Param.add g.parameter ⟨0, (4 * s)⁻¹⟩)], H⟩] none).smulO
            (s * gradInnerParam g.parameter v)).addO
          ((Objective.mk [.ev ⟨U.replaceGate i
              [g.withParameter (Param.add g.parameter ⟨0, -(4 * s)⁻¹⟩)], H⟩] none).smulO
            (-s * gradInnerParam g.parameter v))) := by
        unfold gradGaussian
        rw [hsg, hs]
      refine ⟨_, hrun, ?_⟩
      rw [evalO_addO ev σ _ _ (topBound_smulO _ _ (topBound_mk_none _)),
        evalO_smulO, evalO_smulO, evalO_singleEV, evalO_singleEV]
      push_cast
      ring
    · cases g with
      | mk p sh sg c =>
          simp only [Gate.withParameter, Gate.parameter, Param.eval, PiRat.toReal]
          push_cast
          ring
    · cases g with
      | mk p sh sg c =>
          simp only [Gate.withParameter, Gate.parameter, Param.eval, PiRat.toReal]
          push_cast
          ring

/-- Witness for C1: a one-pair generalized gate and a simple gate with
shift constant 1, against the constant-one oracle. -/
theorem claim_C1_witness :
    (∃ dO, gradGaussian
        (QCircuit.mk [Gate.mk (Param.var "a") (some 1)
          (some [((1 : ℚ)/2, Gate.mk (Param.const (PiRat.mk 0 0)) none none false)])
          false] true)
        (Gate.mk (Param.var "a") (some 1)
          (some [((1 : ℚ)/2, Gate.mk (Param.const (PiRat.mk 0 0)) none none false)])
          false)
        0 "a" "H" = .ok dO ∧
      dO.evalO (fun (_ : QCircuit) (_ : Ham) (_ : TqVariable → ℝ) => (1 : ℝ)) (fun (_ : TqVariable) => (0 : ℝ)) =
        ([((1 : ℚ)/2, Gate.mk (Param.const (PiRat.mk 0 0)) none none false)].map
          fun x => ((x.1 * gradInnerParam (Param.var "a") "a" : ℚ) : ℝ) *
            (fun (_ : QCircuit) (_ : Ham) (_ : TqVariable → ℝ) => (1 : ℝ))
              ((QCircuit.mk [Gate.mk (Param.var "a") (some 1)
                (some [((1 : ℚ)/2, Gate.mk (Param.const (PiRat.mk 0 0)) none none false)])
                false] true).replaceGate 0 [x.2]) "H" (fun (_ : TqVariable) => (0 : ℝ))).sum)
    ∧ (∃ dO, gradGaussian
        (QCircuit.mk [Gate.mk (Param.var "a") (some 1) none false] true)
        (Gate.mk (Param.var "a") (some 1) none false) 0 "a" "H" = .ok dO ∧
        dO.evalO (fun (_ : QCircuit) (_ : Ham) (_ : TqVariable → ℝ) => (1 : ℝ)) (fun (_ : TqVariable) => (0 : ℝ)) =
          ((1 * gradInnerParam (Gate.mk (Param.var "a") (some 1) none
              false).parameter "a" : ℚ) : ℝ) *
            (fun (_ : QCircuit) (_ : Ham) (_ : TqVariable → ℝ) => (1 : ℝ))
              ((QCircuit.mk [Gate.mk (Param.var "a") (some 1) none false]
                true).replaceGate 0
                [(Gate.mk (Param.var "a") (some 1) none false).withParameter
                  (Param.add (Gate.mk (Param.var "a") (some 1) none
                    false).parameter (PiRat.mk 0 (4 * 1)⁻¹))]) "H" (fun (_ : TqVariable) => (0 : ℝ))
          - ((1 * gradInnerParam (Gate.mk (Param.var "a") (some 1) none
              false).parameter "a" : ℚ) : ℝ) *
            (fun (_ : QCircuit) (_ : Ham) (_ : TqVariable → ℝ) => (1 : ℝ))
              ((QCircuit.mk [Gate.mk (Param.var "a") (some 1) none false]
                true).replaceGate 0
                [(Gate.mk (Param.var "a") (some 1) none false).withParameter
                  (Param.add (Gate.mk (Param.var "a") (some 1) none
                    false).parameter (PiRat.mk 0 (-(4 * 1)⁻¹)))]) "H"
              (fun (_ : TqVariable) => (0 : ℝ))) := by
  constructor
  · exact (claim_C1_per_gate_shift_rule
      (QCircuit.mk [Gate.mk (Param.var "a") (some 1)
        (some [((1 : ℚ)/2, Gate.mk (Param.const (PiRat.mk 0 0)) none none false)])
        false] true)
      (Gate.mk (Param.var "a") (some 1)
        (some [((1 : ℚ)/2, Gate.mk (Param.const (PiRat.mk 0 0)) none none false)])
        false)
      0 "a" "H" (fun _ _ _ => (1 : ℝ)) (fun _ => (0 : ℝ))).1
      [((1 : ℚ)/2, Gate.mk (Param.const (PiRat.mk 0 0)) none none false)] rfl
  · exact ((claim_C1_per_gate_shift_rule
      (QCircuit.mk [Gate.mk (Param.var "a") (some 1) none false] true)
      (Gate.mk (Param.var "a") (some 1) none false) 0 "a" "H"
      (fun _ _ _ => (1 : ℝ)) (fun _ => (0 : ℝ))).2 rfl 1 rfl).1

/-- C2: when the same ExpectationValue appears as two arguments of an
objective, the memoization dictionary of `__grad_objective` computes its
inner derivative once and replays the recorded result for the second
occurrence, and the derivative of the doubled objective (built by
objective addition of the single-reference wrapper with itself) evaluates
to exactly twice the derivative of the single-reference objective
(gradient.py lines 84-90). -/
theorem claim_C2_memoized_shared_expectation_value (E : ExpV) (v : TqVariable)
    (ev : EvOracle) (σ : TqVariable → ℝ) (g1 : GradVal)
    (h : gradObjective (.mk [.ev E] none) v = .ok g1) :
    ∃ g2, gradObjective
        ((Objective.mk [.ev E] none).addO (Objective.mk [.ev E] none)) v = .ok g2
      ∧ g2.evalGV ev σ = 2 * g1.evalGV ev σ := by
  cases hE : gradExpectationValue E v with
  | error e => simp [gradObjective, gradObjectiveGo, lookupEV, hE] at h
  | ok x =>
      cases x with
      | num q =>
          have hq : q = 0 := gradEV_ok_num E v q hE
          subst hq
          simp [gradObjective, gradObjectiveGo, lookupEV, hE, accStep,
            GradVal.isZeroNum, beq_self_eq_true] at h
      | obj D =>
          have hrun1 : gradObjective (Objective.mk [.ev E] none) v
              = .ok (.obj (D.smulO 1)) := by
            simp [gradObjective, gradObjectiveGo, lookupEV, hE, accStep,
              GradVal.isZeroNum, outerOf, mulGV]
          have hg1 : g1 = .obj (D.smulO 1) := by
            rw [hrun1] at h
            exact (Except.ok.inj h).symm
          have hrun : gradObjective
              ((Objective.mk [.ev E] none).addO (Objective.mk [.ev E] none)) v
              = .ok (.obj (((Objective.mk [.ev E, .ev E]
                  (some (Expr.add (Expr.add (Expr.const 0) (Expr.const 1))
                    (Expr.add (Expr.const 0) (Expr.const 0))))).mulO D).addO
                ((Objective.mk [.ev E, .ev E]
                  (some (Expr.add (Expr.add (Expr.const 0) (Expr.const 0))
                    (Expr.add (Expr.const 0) (Expr.const 1))))).mulO D))) := by
            simp [Objective.addO, Objective.args, Objective.transformation,
              transfExpr, sumInputs, Expr.shiftIdx, Expr.deriv, gradObjective,
              gradObjectiveGo, lookupEV, hE, accStep, GradVal.isZeroNum, outerOf,
              mulGV, addGV]
          refine ⟨_, hrun, ?_⟩
          rw [hg1]
          have hD : D.topBound = true := by
            have h2 := gradEV_topBound E v (.obj D) hE
            simpa [GradVal.topBoundGV] using h2
          simp only [GradVal.evalGV]
          have htb0 : (Objective.mk [.ev E, .ev E]
              (some (Expr.add (Expr.add (Expr.const 0) (Expr.const 1))
                (Expr.add (Expr.const 0) (Expr.const 0))))).topBound = true := rfl
          have htb1 : (Objective.mk [.ev E, .ev E]
              (some (Expr.add (Expr.add (Expr.const 0) (Expr.const 0))
                (Expr.add (Expr.const 0) (Expr.const 1))))).topBound = true := rfl
          rw [evalO_addO ev σ _ _ (topBound_mulO _ _ htb0 hD)]
          rw [evalO_mulO ev σ _ _ htb0, evalO_mulO ev σ _ _ htb1]
          rw [evalO_smulO]
          have hA0 : (Objective.mk [.ev E, .ev E]
              (some (Expr.add (Expr.add (Expr.const 0) (Expr.const 1))
                (Expr.add (Expr.const 0) (Expr.const 0))))).evalO ev σ = 1 := by
            rw [evalO_mk]
            simp [transfExpr, Expr.eval]
          have hA1 : (Objective.mk [.ev E, .ev E]
              (some (Expr.add (Expr.add (Expr.const 0) (Expr.const 0))
                (Expr.add (Expr.const 0) (Expr.const 1))))).evalO ev σ = 1 := by
            rw [evalO_mk]
            simp [transfExpr, Expr.eval]
          rw [hA0, hA1]
          push_cast
          ring

/-- Witness for C2 on a concrete one-gate expectation value: the doubled
objective differentiates successfully and its value is twice the
single-reference derivative's value. -/
theorem claim_C2_witness :
    ∃ gg g2,
      gradObjective (Objective.mk
        [.ev (ExpV.mk (QCircuit.mk [Gate.mk (Param.var "a") (some 1) none false]
          true) "H")] none) "a" = .ok gg
      ∧ gradObjective ((Objective.mk
          [.ev (ExpV.mk (QCircuit.mk [Gate.mk (Param.var "a") (some 1) none false]
            true) "H")] none).addO
        (Objective.mk
          [.ev (ExpV.mk (QCircuit.mk [Gate.mk (Param.var "a") (some 1) none false]
            true) "H")] none)) "a" = .ok g2
      ∧ g2.evalGV (fun (_ : QCircuit) (_ : Ham) (_ : TqVariable → ℝ) => (1 : ℝ))
          (fun (_ : TqVariable) => (0 : ℝ))
        = 2 * gg.evalGV (fun (_ : QCircuit) (_ : Ham) (_ : TqVariable → ℝ) => (1 : ℝ))
          (fun (_ : TqVariable) => (0 : ℝ)) := by
  obtain ⟨gg, hgg⟩ : ∃ gg, gradObjective (Objective.mk
      [.ev (ExpV.mk (QCircuit.mk [Gate.mk (Param.var "a") (some 1) none false]
        true) "H")] none) "a" = .ok gg := by
    cases hres : gradObjective (Objective.mk
        [.ev (ExpV.mk (QCircuit.mk [Gate.mk (Param.var "a") (some 1) none false]
          true) "H")] none) "a" with
    | ok gg => exact ⟨gg, rfl⟩
    | error e =>
        simp [gradObjective, gradObjectiveGo, lookupEV, gradExpectationValue,
          QCircuit.verify, QCircuit.extractVariables, QCircuit.parameterMap,
          Gate.parameter, Param.vars, gradEVgo, Gate.controlled, Gate.shift,
          gradGaussian, Gate.shiftedGates, gradInnerParam, Gate.withParameter,
          accStep, GradVal.isZeroNum, outerOf, mulGV, Objective.empty] at hres
  obtain ⟨g2, hg2, heval⟩ := claim_C2_memoized_shared_expectation_value
    (ExpV.mk (QCircuit.mk [Gate.mk (Param.var "a") (some 1) none false] true) "H")
    "a" (fun (_ : QCircuit) (_ : Ham) (_ : TqVariable → ℝ) => (1 : ℝ))
    (fun (_ : TqVariable) => (0 : ℝ)) gg hgg
  exact ⟨gg, g2, hgg, hg2, heval⟩

end Tequila
